import Mathlib

/-!
Shallow embedding of the throttle controller of iso-hooks
(src/hooks/useThrottleCallback/index.ts) and proofs about it.

The hook keeps four mutable refs:
  callbackRef   — always the most recently supplied callback,
  lastExecTime  — timestamp (ms) of the last leading execution, starts at 0,
  timeoutRef    — the id of the scheduled trailing timeout, or null,
  trailingArgs  — the saved arguments for the trailing call, or null.

We model callbacks by numeric identities (the controller never inspects the
callback, it only stores and invokes it), timestamps by integers (JS number
arithmetic on Date.now values is exact at this scale), the timeout slot by
the absolute time the scheduled timeout is due, and the argument tuple by a
type parameter.  Executions of the callback are recorded as explicit fire
events instead of being performed, so every theorem can talk about which
invocations happen, in which order, and with which arguments.
-/

namespace IsoHooks

/-- Which edge of the throttle window an execution of the callback belongs to. -/
inductive FireKind where
  | leading
  | trailing
deriving DecidableEq

/-- One recorded execution of the callback: the edge it fired on, the identity
of the callback that was invoked, and the arguments it received. -/
structure Fire (α : Type) where
  kind : FireKind
  cb : Nat
  args : α
deriving DecidableEq

/-- The mutable state of one controller instance: the four refs of the hook.
The timeout ref stores the absolute due time of the scheduled timeout (when
one is scheduled) instead of an opaque timer id. -/
structure ThState (α : Type) where
  callbackRef : Nat
  lastExecTime : Int
  timeoutRef : Option Int
  trailingArgs : Option α
deriving DecidableEq

/-- State of a freshly mounted hook: lastExecTime starts at 0, no timeout is
scheduled and no trailing arguments are stored. -/
def initState (cb : Nat) : ThState α :=
  { callbackRef := cb, lastExecTime := 0, timeoutRef := none, trailingArgs := none }

/-- The throttled function returned by the hook, as a state transformer.
Mirrors the body of the useCallback closure line by line: compute elapsed;
on the leading branch clear a pending timeout if there is one, invoke the
callback, then set lastExecTime; on the throttled branch save the arguments
and schedule the trailing timeout only when none exists. -/
def throttled (delay now : Int) (args : α) (s : ThState α) :
    ThState α × List (Fire α) :=
  let elapsed := now - s.lastExecTime
  if elapsed ≥ delay then
    let s1 := if s.timeoutRef.isSome then { s with timeoutRef := none } else s
    ({ s1 with lastExecTime := now }, [⟨FireKind.leading, s1.callbackRef, args⟩])
  else
    let s1 := { s with trailingArgs := some args }
    if s1.timeoutRef.isSome then (s1, [])
    else
      let remaining := delay - elapsed
      ({ s1 with timeoutRef := some (now + remaining) }, [])

/-- The body of the setTimeout callback: null out the timeout ref, and if
trailing arguments are saved, invoke the callback with them and clear them.
It deliberately does not touch lastExecTime. -/
def timeoutCallback (s : ThState α) : ThState α × List (Fire α) :=
  let s1 := { s with timeoutRef := none }
  match s1.trailingArgs with
  | some a => ({ s1 with trailingArgs := none }, [⟨FireKind.trailing, s1.callbackRef, a⟩])
  | none => (s1, [])

/-- External events a controller instance can experience: a call of the
throttled function at a given time, the platform delivering a matured
timeout at a given time, and a re-render replacing the callback ref. -/
inductive Ev (α : Type) where
  | trig (now : Int) (args : α)
  | timer (now : Int)
  | setCb (cb : Nat)
deriving DecidableEq

/-- One event step.  A timer event runs the timeout callback only when a
timeout is actually scheduled and its due time has been reached; a timeout
that was cancelled (timeoutRef cleared) never runs. -/
def step (delay : Int) (s : ThState α) : Ev α → ThState α × List (Fire α)
  | Ev.trig now args => throttled delay now args s
  | Ev.timer now =>
    match s.timeoutRef with
    | some d => if d ≤ now then timeoutCallback s else (s, [])
    | none => (s, [])
  | Ev.setCb cb => ({ s with callbackRef := cb }, [])

/-- Run a list of events from a state, accumulating the fires in order. -/
def runFrom (delay : Int) : ThState α → List (Ev α) → ThState α × List (Fire α)
  | s, [] => (s, [])
  | s, e :: evs =>
    let p := step delay s e
    let q := runFrom delay p.1 evs
    (q.1, p.2 ++ q.2)

/-- Run a list of events on a freshly mounted hook. -/
def run (delay : Int) (cb : Nat) (evs : List (Ev α)) : ThState α × List (Fire α) :=
  runFrom delay (initState cb) evs

/-- The throttled function when the invoked callback may throw.  The flag
says whether the callback raises when invoked; the error value is the
controller state at the instant the exception propagates out.  The ordering
follows the source exactly: on the leading branch the timeout is cleared,
then the callback runs, and only afterwards is lastExecTime assigned, so a
throw leaves lastExecTime untouched; the throttled branch never invokes the
callback and so never throws. -/
def throttledExc (delay now : Int) (throws : Bool) (args : α) (s : ThState α) :
    Except (ThState α) (ThState α × List (Fire α)) :=
  let elapsed := now - s.lastExecTime
  if elapsed ≥ delay then
    let s1 := if s.timeoutRef.isSome then { s with timeoutRef := none } else s
    if throws then Except.error s1
    else Except.ok ({ s1 with lastExecTime := now },
      [⟨FireKind.leading, s1.callbackRef, args⟩])
  else
    let s1 := { s with trailingArgs := some args }
    if s1.timeoutRef.isSome then Except.ok (s1, [])
    else
      let remaining := delay - elapsed
      Except.ok ({ s1 with timeoutRef := some (now + remaining) }, [])

/-- The setTimeout callback body when the invoked callback may throw.  The
source nulls the timeout ref first, then invokes the callback, and clears
trailingArgs only afterwards, so a throw leaves trailingArgs in place. -/
def timeoutCallbackExc (throws : Bool) (s : ThState α) :
    Except (ThState α) (ThState α × List (Fire α)) :=
  let s1 := { s with timeoutRef := none }
  match s1.trailingArgs with
  | some a =>
    if throws then Except.error s1
    else Except.ok ({ s1 with trailingArgs := none },
      [⟨FireKind.trailing, s1.callbackRef, a⟩])
  | none => Except.ok (s1, [])

/-- Identity of the most recently supplied callback after a trace: the last
setCb event wins, otherwise the callback the hook was mounted with. -/
def lastCb (cb0 : Nat) (evs : List (Ev α)) : Nat :=
  evs.foldl (fun c e => match e with | Ev.setCb c2 => c2 | _ => c) cb0

/-- Specification-side observer, following the words of the spec: the
arguments of the chronologically most recent call of the throttled function
made since the most recent leading fire, or none when the most recent call
leading-fired.  A call leading-fires exactly when its elapsed time reaches
the delay, matching the branch condition of the code. -/
def lastCallSinceLeading (delay : Int) (s : ThState α) (g : Option α) :
    Ev α → Option α
  | Ev.trig now args => if now - s.lastExecTime ≥ delay then none else some args
  | Ev.timer _ => g
  | Ev.setCb _ => g

/-- Run a trace while also tracking the spec-side observer alongside the
code state: the pair of the final code state and the final observer value. -/
def runG (delay : Int) : ThState α → Option α → List (Ev α) → ThState α × Option α
  | s, g, [] => (s, g)
  | s, g, e :: evs => runG delay (step delay s e).1 (lastCallSinceLeading delay s g e) evs

end IsoHooks
namespace IsoHooks

variable {α : Type}

lemma throttled_leading (delay now : Int) (args : α) (s : ThState α)
    (h : now - s.lastExecTime ≥ delay) :
    throttled delay now args s =
      ({ s with timeoutRef := none, lastExecTime := now },
       [⟨FireKind.leading, s.callbackRef, args⟩]) := by
  obtain ⟨cb, L, tr, ta⟩ := s
  simp only [throttled, if_pos h]
  cases tr <;> rfl

lemma throttled_inWindow_timerSet (delay now : Int) (args : α) (s : ThState α) (d : Int)
    (h : ¬ now - s.lastExecTime ≥ delay) (ht : s.timeoutRef = some d) :
    throttled delay now args s = ({ s with trailingArgs := some args }, []) := by
  obtain ⟨cb, L, tr, ta⟩ := s
  cases ht
  simp only [throttled, if_neg h]
  rfl

lemma throttled_inWindow_noTimer (delay now : Int) (args : α) (s : ThState α)
    (h : ¬ now - s.lastExecTime ≥ delay) (ht : s.timeoutRef = none) :
    throttled delay now args s =
      ({ s with trailingArgs := some args,
                timeoutRef := some (now + (delay - (now - s.lastExecTime))) }, []) := by
  obtain ⟨cb, L, tr, ta⟩ := s
  cases ht
  simp only [throttled, if_neg h]
  rfl

lemma timeoutCallback_some (s : ThState α) (a : α) (h : s.trailingArgs = some a) :
    timeoutCallback s =
      ({ s with timeoutRef := none, trailingArgs := none },
       [⟨FireKind.trailing, s.callbackRef, a⟩]) := by
  obtain ⟨cb, L, tr, ta⟩ := s
  cases h
  rfl

lemma timeoutCallback_none (s : ThState α) (h : s.trailingArgs = none) :
    timeoutCallback s = ({ s with timeoutRef := none }, []) := by
  obtain ⟨cb, L, tr, ta⟩ := s
  cases h
  rfl

lemma timeoutCallback_lastExecTime (s : ThState α) :
    (timeoutCallback s).1.lastExecTime = s.lastExecTime := by
  obtain ⟨cb, L, tr, ta⟩ := s
  cases ta <;> rfl

lemma timeoutCallback_callbackRef (s : ThState α) :
    (timeoutCallback s).1.callbackRef = s.callbackRef := by
  obtain ⟨cb, L, tr, ta⟩ := s
  cases ta <;> rfl

lemma throttled_callbackRef (delay now : Int) (args : α) (s : ThState α) :
    (throttled delay now args s).1.callbackRef = s.callbackRef := by
  obtain ⟨cb, L, tr, ta⟩ := s
  simp only [throttled]
  split
  · cases tr <;> rfl
  · cases tr <;> rfl

lemma step_callbackRef (delay : Int) (s : ThState α) (e : Ev α) :
    (step delay s e).1.callbackRef =
      match e with | Ev.setCb c => c | _ => s.callbackRef := by
  cases e with
  | trig now args => exact throttled_callbackRef delay now args s
  | timer now =>
    simp only [step]
    cases h : s.timeoutRef with
    | none => rfl
    | some d =>
      by_cases hd : d ≤ now
      · simp only [if_pos hd]; exact timeoutCallback_callbackRef s
      · simp only [if_neg hd]
  | setCb c => rfl

lemma runFrom_append (delay : Int) (s : ThState α) (l1 l2 : List (Ev α)) :
    runFrom delay s (l1 ++ l2) =
      ((runFrom delay (runFrom delay s l1).1 l2).1,
        (runFrom delay s l1).2 ++ (runFrom delay (runFrom delay s l1).1 l2).2) := by
  induction l1 generalizing s with
  | nil => simp [runFrom]
  | cons e l1 ih =>
    simp only [List.cons_append, runFrom, List.append_eq, ih (step delay s e).1,
      List.append_assoc]

end IsoHooks
namespace IsoHooks

variable {α : Type}

/-- While a timeout is scheduled, a run of in-window calls of the throttled
function produces no fire and only overwrites trailingArgs, keeping the
arguments of the last call. -/
lemma runFrom_inWindow_timerSet (delay d : Int) (l : List (Int × α)) :
    ∀ s : ThState α, s.timeoutRef = some d →
      (∀ p ∈ l, ¬ p.1 - s.lastExecTime ≥ delay) →
      runFrom delay s (l.map (fun p => Ev.trig p.1 p.2)) =
        ({ s with trailingArgs := l.foldl (fun _ q => some q.2) s.trailingArgs }, []) := by
  induction l with
  | nil => intro s _ _; simp [runFrom]
  | cons p t ih =>
    intro s ht hin
    simp only [List.map_cons, runFrom, step]
    rw [throttled_inWindow_timerSet delay p.1 p.2 s d (hin p (by simp)) ht]
    rw [ih { s with trailingArgs := some p.2 } ht (fun q hq => hin q (by simp [hq]))]
    simp

/-- Folding the keep-the-last function over a list ending in p yields p. -/
lemma foldl_keepLast (l : List (Int × α)) (p : Int × α) (init : Option α) :
    (l ++ [p]).foldl (fun _ q => some q.2) init = some p.2 := by
  simp [List.foldl_append]

/-- One step preserves the invariant: a scheduled timeout implies stored
trailing arguments. -/
lemma step_timer_implies_args (delay : Int) (s : ThState α) (e : Ev α)
    (h : s.timeoutRef.isSome → s.trailingArgs.isSome) :
    (step delay s e).1.timeoutRef.isSome → (step delay s e).1.trailingArgs.isSome := by
  cases e with
  | trig now args =>
    by_cases hc : now - s.lastExecTime ≥ delay
    · rw [show step delay s (Ev.trig now args) = throttled delay now args s from rfl,
        throttled_leading delay now args s hc]
      simp
    · cases ht : s.timeoutRef with
      | some d =>
        rw [show step delay s (Ev.trig now args) = throttled delay now args s from rfl,
          throttled_inWindow_timerSet delay now args s d hc ht]
        simp
      | none =>
        rw [show step delay s (Ev.trig now args) = throttled delay now args s from rfl,
          throttled_inWindow_noTimer delay now args s hc ht]
        simp
  | timer now =>
    simp only [step]
    cases ht : s.timeoutRef with
    | none => simp [ht]
    | some d =>
      by_cases hd : d ≤ now
      · simp only [if_pos hd]
        cases ha : s.trailingArgs with
        | some a => rw [timeoutCallback_some s a ha]; simp
        | none => rw [timeoutCallback_none s ha]; simp
      · simp only [if_neg hd]
        simpa [ht] using h
  | setCb c => simpa using h

/-- The invariant holds of every state reached by a trace: whenever a
timeout is scheduled, trailing arguments are stored. -/
lemma runFrom_timer_implies_args (delay : Int) (evs : List (Ev α)) :
    ∀ s : ThState α, (s.timeoutRef.isSome → s.trailingArgs.isSome) →
      (runFrom delay s evs).1.timeoutRef.isSome →
      (runFrom delay s evs).1.trailingArgs.isSome := by
  induction evs with
  | nil => intro s h; exact h
  | cons e t ih =>
    intro s h
    exact ih (step delay s e).1 (step_timer_implies_args delay s e h)

end IsoHooks
namespace IsoHooks

variable {α : Type}

lemma step_trig (delay now : Int) (args : α) (s : ThState α) :
    step delay s (Ev.trig now args) = throttled delay now args s := rfl

lemma step_timer_due (delay now d : Int) (s : ThState α)
    (ht : s.timeoutRef = some d) (hd : d ≤ now) :
    step delay s (Ev.timer now) = timeoutCallback s := by
  simp [step, ht, hd]

lemma step_timer_notDue (delay now d : Int) (s : ThState α)
    (ht : s.timeoutRef = some d) (hd : ¬ d ≤ now) :
    step delay s (Ev.timer now) = (s, []) := by
  simp [step, ht, hd]

lemma step_timer_none (delay now : Int) (s : ThState α) (ht : s.timeoutRef = none) :
    step delay s (Ev.timer now) = (s, []) := by
  simp [step, ht]

/-- The ghost-tracking run computes the same code state as the plain run. -/
lemma runG_fst (delay : Int) (evs : List (Ev α)) :
    ∀ (s : ThState α) (g : Option α),
      (runG delay s g evs).1 = (runFrom delay s evs).1 := by
  induction evs with
  | nil => intro s g; rfl
  | cons e t ih =>
    intro s g
    simp only [runG, runFrom]
    exact ih (step delay s e).1 (lastCallSinceLeading delay s g e)

/-- One step preserves: whenever a timeout is scheduled, the stored trailing
arguments are exactly the spec-side observer value. -/
lemma step_args_track_observer (delay : Int) (s : ThState α) (g : Option α) (e : Ev α)
    (h : s.timeoutRef.isSome → s.trailingArgs = g) :
    (step delay s e).1.timeoutRef.isSome →
      (step delay s e).1.trailingArgs = lastCallSinceLeading delay s g e := by
  cases e with
  | trig now args =>
    by_cases hc : now - s.lastExecTime ≥ delay
    · rw [step_trig, throttled_leading delay now args s hc]
      simp
    · cases ht : s.timeoutRef with
      | some d =>
        rw [step_trig, throttled_inWindow_timerSet delay now args s d hc ht]
        simp [lastCallSinceLeading, if_neg hc]
      | none =>
        rw [step_trig, throttled_inWindow_noTimer delay now args s hc ht]
        simp [lastCallSinceLeading, if_neg hc]
  | timer now =>
    cases ht : s.timeoutRef with
    | none => rw [step_timer_none delay now s ht]; simp [ht]
    | some d =>
      by_cases hd : d ≤ now
      · rw [step_timer_due delay now d s ht hd]
        cases ha : s.trailingArgs with
        | some a => rw [timeoutCallback_some s a ha]; simp
        | none => rw [timeoutCallback_none s ha]; simp
      · rw [step_timer_notDue delay now d s ht hd]
        intro hx
        simpa [lastCallSinceLeading] using h (by simp [ht])
  | setCb c =>
    intro hx
    simpa [lastCallSinceLeading] using h (by simpa [step] using hx)

/-- Along any trace: whenever a timeout is scheduled in the reached state,
the stored trailing arguments equal the spec-side observer value. -/
lemma runG_args_track_observer (delay : Int) (evs : List (Ev α)) :
    ∀ (s : ThState α) (g : Option α), (s.timeoutRef.isSome → s.trailingArgs = g) →
      (runG delay s g evs).1.timeoutRef.isSome →
      (runG delay s g evs).1.trailingArgs = (runG delay s g evs).2 := by
  induction evs with
  | nil => intro s g h; exact h
  | cons e t ih =>
    intro s g h
    exact ih (step delay s e).1 (lastCallSinceLeading delay s g e)
      (step_args_track_observer delay s g e h)

/-- The callback ref in the reached state is always the most recently
supplied callback. -/
lemma runFrom_callbackRef (delay : Int) (evs : List (Ev α)) :
    ∀ s : ThState α, (runFrom delay s evs).1.callbackRef = lastCb s.callbackRef evs := by
  induction evs with
  | nil => intro s; rfl
  | cons e t ih =>
    intro s
    simp only [runFrom, lastCb, List.foldl_cons]
    rw [ih (step delay s e).1, step_callbackRef delay s e]
    cases e <;> rfl

/-- Every fire a single step emits carries the callback currently stored in
the callback ref. -/
lemma step_fires_cb (delay : Int) (s : ThState α) (e : Ev α) (f : Fire α)
    (hf : f ∈ (step delay s e).2) : f.cb = s.callbackRef := by
  cases e with
  | trig now args =>
    by_cases hc : now - s.lastExecTime ≥ delay
    · rw [step_trig, throttled_leading delay now args s hc] at hf
      simp only [List.mem_singleton] at hf
      rw [hf]
    · cases ht : s.timeoutRef with
      | some d =>
        rw [step_trig, throttled_inWindow_timerSet delay now args s d hc ht] at hf
        simp at hf
      | none =>
        rw [step_trig, throttled_inWindow_noTimer delay now args s hc ht] at hf
        simp at hf
  | timer now =>
    cases ht : s.timeoutRef with
    | none => rw [step_timer_none delay now s ht] at hf; simp at hf
    | some d =>
      by_cases hd : d ≤ now
      · rw [step_timer_due delay now d s ht hd] at hf
        cases ha : s.trailingArgs with
        | some a =>
          rw [timeoutCallback_some s a ha] at hf
          simp only [List.mem_singleton] at hf
          rw [hf]
        | none => rw [timeoutCallback_none s ha] at hf; simp at hf
      · rw [step_timer_notDue delay now d s ht hd] at hf; simp at hf
  | setCb c => simp [step] at hf

end IsoHooks
namespace IsoHooks

variable {α : Type}

/-- With a zero window and non-decreasing call times, every call of the
throttled function leading-fires with its own arguments, and no timeout is
ever scheduled.  The final lastExecTime is the time of the last call. -/
lemma runFrom_zero_window (l : List (Int × α)) :
    ∀ s : ThState α, s.timeoutRef = none →
      List.Chain (· ≤ ·) s.lastExecTime (l.map Prod.fst) →
      runFrom 0 s (l.map (fun p => Ev.trig p.1 p.2)) =
        ({ s with timeoutRef := none,
                  lastExecTime := l.foldl (fun _ q => q.1) s.lastExecTime },
         l.map (fun p => ⟨FireKind.leading, s.callbackRef, p.2⟩)) := by
  induction l with
  | nil =>
    intro s ht _
    simp only [List.map_nil, runFrom, List.foldl_nil]
    rw [show ({ s with timeoutRef := none, lastExecTime := s.lastExecTime } : ThState α)
      = { s with timeoutRef := none } from rfl]
    obtain ⟨cb, L, tr, ta⟩ := s
    cases ht
    rfl
  | cons p t ih =>
    intro s ht hch
    rw [List.map_cons, List.chain_cons] at hch
    obtain ⟨h1, h2⟩ := hch
    simp only [List.map_cons, runFrom, step_trig]
    rw [throttled_leading 0 p.1 p.2 s (by omega)]
    rw [ih { s with timeoutRef := none, lastExecTime := p.1 } rfl (by simpa using h2)]
    simp

end IsoHooks
namespace IsoHooks

variable {α : Type}

/-- C7 counterexample: on a freshly mounted hook, the very first call of the
throttled function at clock time 1 with a window of 2 does not invoke the
callback synchronously; it is throttled and schedules a trailing timeout,
because lastExecTime starts at 0 rather than at a never sentinel. -/
theorem first_call_small_clock_throttled :
    (throttled 2 1 (0 : Nat) (initState 0)).2 = [] ∧
    (throttled 2 1 (0 : Nat) (initState 0)).1.timeoutRef = some 2 ∧
    (throttled 2 1 (0 : Nat) (initState 0)).1.trailingArgs = some 0 := by decide

/-- C7 (amended): the first call of the throttled function on a freshly
mounted hook invokes the callback exactly once, synchronously, with its own
arguments, and schedules no trailing timeout — provided the clock time is at
least the window length, since lastExecTime starts at 0 and elapsed is
therefore the clock time itself. -/
theorem first_call_leading_fire (cb : Nat) (x : α) (delay now : Int)
    (_hd : 0 ≤ delay) (hn : delay ≤ now) :
    throttled delay now x (initState cb) =
      ({ callbackRef := cb, lastExecTime := now, timeoutRef := none,
         trailingArgs := none },
       [⟨FireKind.leading, cb, x⟩]) := by
  rw [throttled_leading delay now x (initState cb)
    (by simp only [initState]; omega)]
  rfl

/-- C7 witness: the amended first-call theorem at window 200, clock 1000. -/
theorem first_call_leading_fire_witness :
    throttled 200 1000 (5 : Nat) (initState 7) =
      ({ callbackRef := 7, lastExecTime := 1000, timeoutRef := none,
         trailingArgs := none },
       [⟨FireKind.leading, 7, 5⟩]) :=
  first_call_leading_fire 7 5 200 1000 (by decide) (by decide)

/-- C5 counterexample: from the reachable state after a leading call at 100
and a throttled call at 105 (window 10), a leading-branch call at 110 — while
the trailing fire is still scheduled — cancels the timeout but leaves the
superseded pending arguments stored: trailingArgs is still some 2 afterwards,
refuting that both pendingTimer and pendingArgs are cleared. -/
theorem leading_keeps_pendingArgs_cex :
    ((run 10 0 [Ev.trig 100 (1 : Nat), Ev.trig 105 2]).1.timeoutRef = some 110) ∧
    (throttled 10 110 (3 : Nat)
        (run 10 0 [Ev.trig 100 (1 : Nat), Ev.trig 105 2]).1).2 =
      [⟨FireKind.leading, 0, 3⟩] ∧
    (throttled 10 110 (3 : Nat)
        (run 10 0 [Ev.trig 100 (1 : Nat), Ev.trig 105 2]).1).1.timeoutRef = none ∧
    (throttled 10 110 (3 : Nat)
        (run 10 0 [Ev.trig 100 (1 : Nat), Ev.trig 105 2]).1).1.trailingArgs = some 2 := by
  decide

/-- C5 (amended): a leading-branch call made while a trailing fire is
scheduled cancels the scheduled fire and clears the timeout slot — the slot
is already cleared in the state seen by a throwing callback, hence cleared
before the callback is invoked — and then fires once with its own arguments;
the stored pending arguments are not cleared and survive unchanged. -/
theorem leading_supersedes_pending (s : ThState α) (delay now : Int) (args : α)
    (d : Int) (ht : s.timeoutRef = some d) (hc : now - s.lastExecTime ≥ delay) :
    throttled delay now args s =
      ({ s with timeoutRef := none, lastExecTime := now },
       [⟨FireKind.leading, s.callbackRef, args⟩]) ∧
    throttledExc delay now true args s = Except.error { s with timeoutRef := none } := by
  refine ⟨throttled_leading delay now args s hc, ?_⟩
  obtain ⟨cb, L, tr, ta⟩ := s
  cases ht
  simp only [throttledExc, if_pos hc]
  rfl

/-- C5 witness: the amended supersede theorem at a concrete reachable state. -/
theorem leading_supersedes_pending_witness :
    (throttled 10 110 (3 : Nat) ⟨0, 100, some 110, some 2⟩ =
      ({ callbackRef := 0, lastExecTime := 110, timeoutRef := none,
         trailingArgs := some 2 },
       [⟨FireKind.leading, 0, 3⟩])) ∧
    throttledExc 10 110 true (3 : Nat) ⟨0, 100, some 110, some 2⟩ =
      Except.error (⟨0, 100, none, some 2⟩ : ThState Nat) :=
  leading_supersedes_pending ⟨0, 100, some 110, some 2⟩ 10 110 3 110 rfl (by decide)

/-- C6 counterexample: the state reached by a leading call at 100, a
throttled call at 105 and a second leading call at 110 (window 10, the
timeout matured but not yet delivered) has pending arguments stored while no
trailing fire is scheduled, refuting the if-and-only-if. -/
theorem pendingArgs_without_timer_cex :
    (run 10 0 [Ev.trig 100 (1 : Nat), Ev.trig 105 2, Ev.trig 110 3]).1.trailingArgs
        = some 2 ∧
    (run 10 0 [Ev.trig 100 (1 : Nat), Ev.trig 105 2, Ev.trig 110 3]).1.timeoutRef
        = none := by
  decide

/-- C6 (amended): in every state reachable by any trace of events on a
freshly mounted hook, if a trailing fire is currently scheduled then pending
arguments are stored; the converse direction does not hold. -/
theorem timer_scheduled_implies_pendingArgs (delay : Int) (cb : Nat)
    (evs : List (Ev α)) (h : (run delay cb evs).1.timeoutRef.isSome) :
    (run delay cb evs).1.trailingArgs.isSome :=
  runFrom_timer_implies_args delay evs (initState cb) (by simp [initState]) h

/-- C6 witness: the invariant applied after a trace that schedules a
trailing fire. -/
theorem timer_scheduled_implies_pendingArgs_witness :
    ((run 10 0 [Ev.trig 100 (1 : Nat), Ev.trig 105 2]).1.trailingArgs).isSome :=
  timer_scheduled_implies_pendingArgs 10 0 [Ev.trig 100 (1 : Nat), Ev.trig 105 2]
    (by decide)

/-- C4 (failing input, evaluated): with window 10, a leading call at 100
with a throwing callback propagates the exception while lastExecTime is
still 0 — the assignment comes after the invocation in the source — so a
call at 101 leading-fires again 1ms later; and a trailing run with a
throwing callback propagates while trailingArgs is still stored.  The claim
says lastFireAt is set, and pendingArgs cleared, before the invocation. -/
theorem throwing_callback_state_order :
    (throttledExc 10 100 true (5 : Nat) (initState 0) =
      Except.error (⟨0, 0, none, none⟩ : ThState Nat)) ∧
    (throttled 10 101 (6 : Nat) (initState 0)).2 = [⟨FireKind.leading, 0, 6⟩] ∧
    (timeoutCallbackExc true (⟨0, 100, some 110, some (7 : Nat)⟩ : ThState Nat) =
      Except.error (⟨0, 100, none, some 7⟩ : ThState Nat)) :=
  ⟨rfl, by decide, rfl⟩

/-- C3 (failing input, evaluated): window 200, calls at 1000 and 1050, owner
discards the controller before 1200; the hook defines no teardown — no
unmount effect and no cancel operation — so the matured timeout still runs
and the trailing fire of the second call's arguments happens anyway. -/
theorem no_teardown_trailing_fires :
    (run 200 0 [Ev.trig 1000 (1 : Nat), Ev.trig 1050 2, Ev.timer 1250]).2 =
      [⟨FireKind.leading, 0, 1⟩, ⟨FireKind.trailing, 0, 2⟩] := by
  decide

/-- C2: delivering a matured trailing fire leaves lastExecTime untouched, so
a call of the throttled function at any time at least a window after the
leading fire that anchored the window — including immediately after the
trailing fire — takes the leading branch and fires synchronously. -/
theorem trailing_keeps_window_anchor (s : ThState α) (delay now t2 : Int)
    (args : α) (d : Int) (ht : s.timeoutRef = some d) (hd : d ≤ now)
    (h2 : t2 - s.lastExecTime ≥ delay) :
    (step delay s (Ev.timer now)).1.lastExecTime = s.lastExecTime ∧
    (throttled delay t2 args (step delay s (Ev.timer now)).1).2 =
      [⟨FireKind.leading, s.callbackRef, args⟩] := by
  rw [step_timer_due delay now d s ht hd]
  refine ⟨timeoutCallback_lastExecTime s, ?_⟩
  rw [throttled_leading delay t2 args (timeoutCallback s).1
    (by rw [timeoutCallback_lastExecTime]; exact h2)]
  rw [timeoutCallback_callbackRef]

/-- C2 witness: trailing fire at 110, immediate re-trigger at 110 with the
leading fire anchored at 100 and window 10. -/
theorem trailing_keeps_window_anchor_witness :
    ((step 10 (⟨0, 100, some 110, some (2 : Nat)⟩ : ThState Nat)
        (Ev.timer 110)).1.lastExecTime = 100) ∧
    (throttled 10 110 (3 : Nat)
        (step 10 (⟨0, 100, some 110, some (2 : Nat)⟩ : ThState Nat)
          (Ev.timer 110)).1).2 = [⟨FireKind.leading, 0, 3⟩] :=
  trailing_keeps_window_anchor ⟨0, 100, some 110, some 2⟩ 10 110 110 3 110 rfl
    (by decide) (by decide)

end IsoHooks
namespace IsoHooks

variable {α : Type}

/-- C8: any fire emitted by the next event after an arbitrary trace carries
the most recently supplied callback — the last one set during the trace, or
the mount-time callback when none was replaced.  This covers leading fires,
and trailing fires whose timeout was scheduled before the replacement. -/
theorem fires_use_latest_callback (delay : Int) (cb0 : Nat) (evs : List (Ev α))
    (e : Ev α) (f : Fire α) (hf : f ∈ (step delay (run delay cb0 evs).1 e).2) :
    f.cb = lastCb cb0 evs := by
  rw [step_fires_cb delay (run delay cb0 evs).1 e f hf]
  exact runFrom_callbackRef delay evs (initState cb0)

/-- C8 witness: the callback is replaced (0 becomes 9) after the trailing
timeout was scheduled; the trailing fire delivered afterwards carries 9. -/
theorem fires_use_latest_callback_witness :
    (⟨FireKind.trailing, 9, (2 : Nat)⟩ : Fire Nat).cb =
      lastCb 0 [Ev.trig 100 (1 : Nat), Ev.trig 105 2, Ev.setCb 9] :=
  fires_use_latest_callback 10 0 [Ev.trig 100 (1 : Nat), Ev.trig 105 2, Ev.setCb 9]
    (Ev.timer 110) ⟨FireKind.trailing, 9, 2⟩ (by decide)

/-- C9: with a zero window and non-decreasing call times every call of the
throttled function takes the leading branch — elapsed is always at least the
window — and fires synchronously with its own arguments, and no trailing
timeout is ever scheduled. -/
theorem zero_window_all_leading (cb : Nat) (l : List (Int × α))
    (hch : List.Chain (· ≤ ·) 0 (l.map Prod.fst)) :
    (run 0 cb (l.map (fun p => Ev.trig p.1 p.2))).2 =
      l.map (fun p => ⟨FireKind.leading, cb, p.2⟩) ∧
    (run 0 cb (l.map (fun p => Ev.trig p.1 p.2))).1.timeoutRef = none := by
  have h := runFrom_zero_window l (initState cb) rfl hch
  rw [show run 0 cb (l.map (fun p => Ev.trig p.1 p.2)) =
    runFrom 0 (initState cb) (l.map (fun p => Ev.trig p.1 p.2)) from rfl, h]
  exact ⟨rfl, rfl⟩

/-- C9 witness: zero window, three calls of which two share the same
instant; all three leading-fire and no timeout is scheduled. -/
theorem zero_window_all_leading_witness :
    ((run 0 5 [Ev.trig 0 (1 : Nat), Ev.trig 0 2, Ev.trig 3 3]).2 =
      [⟨FireKind.leading, 5, 1⟩, ⟨FireKind.leading, 5, 2⟩,
       ⟨FireKind.leading, 5, 3⟩]) ∧
    (run 0 5 [Ev.trig 0 (1 : Nat), Ev.trig 0 2, Ev.trig 3 3]).1.timeoutRef = none :=
  zero_window_all_leading 5 [(0, 1), (0, 2), (3, 3)]
    (by
      simp only [List.map_cons, List.map_nil]
      exact List.Chain.cons (by decide)
        (List.Chain.cons (by decide) (List.Chain.cons (by decide) List.Chain.nil)))

/-- C10: whenever delivering a timeout after an arbitrary trace emits a
fire, that fire is a trailing fire and its arguments are exactly the
spec-side observer value — the arguments of the chronologically most recent
call made since the most recent leading fire.  In particular arguments left
stored by a leading call that cancelled a timeout never fire on their own. -/
theorem trailing_fires_latest_since_leading (delay : Int) (cb : Nat)
    (evs : List (Ev α)) (now : Int) (k : FireKind) (c : Nat) (a : α)
    (hf : (⟨k, c, a⟩ : Fire α) ∈ (step delay (run delay cb evs).1 (Ev.timer now)).2) :
    k = FireKind.trailing ∧ (runG delay (initState cb) none evs).2 = some a := by
  have hg1 : (runG delay (initState cb) none evs).1 = (run delay cb evs).1 :=
    runG_fst delay evs (initState cb) (none : Option α)
  cases ht : (run delay cb evs).1.timeoutRef with
  | none =>
    rw [step_timer_none delay now _ ht] at hf
    simp at hf
  | some d =>
    by_cases hd : d ≤ now
    · rw [step_timer_due delay now d _ ht hd] at hf
      cases ha : (run delay cb evs).1.trailingArgs with
      | none =>
        rw [timeoutCallback_none _ ha] at hf
        simp at hf
      | some b =>
        rw [timeoutCallback_some _ b ha] at hf
        simp only [List.mem_singleton, Fire.mk.injEq] at hf
        obtain ⟨hk, -, hab⟩ := hf
        refine ⟨hk, ?_⟩
        have h2 := runG_args_track_observer delay evs (initState cb) none
          (by simp [initState]) (by rw [hg1, ht]; rfl)
        rw [hg1, ha] at h2
        rw [hab, ← h2]
    · rw [step_timer_notDue delay now d _ ht hd] at hf
      simp at hf

/-- C10 witness: burst at 100, 103, 105 with window 10; the timeout
delivered at 110 fires the arguments of the call at 105, which the observer
reports as the most recent call since the leading fire at 100. -/
theorem trailing_fires_latest_since_leading_witness :
    FireKind.trailing = FireKind.trailing ∧
    (runG 10 (initState 0) none
      [Ev.trig 100 (1 : Nat), Ev.trig 103 2, Ev.trig 105 3]).2 = some 3 :=
  trailing_fires_latest_since_leading 10 0
    [Ev.trig 100 (1 : Nat), Ev.trig 103 2, Ev.trig 105 3] 110
    FireKind.trailing 0 3 (by decide)

end IsoHooks
namespace IsoHooks

variable {α : Type}

/-- A nonempty run of in-window calls of the throttled function starting
with no timeout scheduled: the first call schedules the timeout for exactly
one window after the anchoring leading fire, every call overwrites the
stored trailing arguments, and no fire occurs. -/
lemma runFrom_inWindow_noTimer_phase (delay : Int) (q : Int × α)
    (rest : List (Int × α)) (s : ThState α) (ht : s.timeoutRef = none)
    (hq : ¬ q.1 - s.lastExecTime ≥ delay)
    (hrest : ∀ p ∈ rest, ¬ p.1 - s.lastExecTime ≥ delay) :
    runFrom delay s ((q :: rest).map (fun p => Ev.trig p.1 p.2)) =
      ((⟨s.callbackRef, s.lastExecTime, some (s.lastExecTime + delay),
          (q :: rest).foldl (fun _ r => some r.2) s.trailingArgs⟩ : ThState α), []) := by
  simp only [List.map_cons, runFrom, step_trig]
  rw [throttled_inWindow_noTimer delay q.1 q.2 s hq ht]
  rw [show q.1 + (delay - (q.1 - s.lastExecTime)) = s.lastExecTime + delay from by omega]
  rw [runFrom_inWindow_timerSet delay (s.lastExecTime + delay) rest
    { s with trailingArgs := some q.2, timeoutRef := some (s.lastExecTime + delay) }
    rfl (fun p hp => hrest p hp)]
  rfl

/-- Unfolding one event from the front of a run, with the step result
supplied explicitly. -/
lemma runFrom_cons_eq (delay : Int) (s s1 : ThState α) (fs : List (Fire α))
    (e : Ev α) (evs : List (Ev α)) (hstep : step delay s e = (s1, fs)) :
    runFrom delay s (e :: evs) =
      ((runFrom delay s1 evs).1, fs ++ (runFrom delay s1 evs).2) := by
  simp [runFrom, hstep]

/-- A singleton run delivering a matured timeout is the timeout callback. -/
lemma runFrom_timer_due (delay now d : Int) (s : ThState α)
    (ht : s.timeoutRef = some d) (hd : d ≤ now) :
    runFrom delay s [Ev.timer now] = timeoutCallback s := by
  have h := step_timer_due delay now d s ht hd
  simp [runFrom, h]

/-- After a leading fire at the current lastExecTime: a nonempty run of
in-window calls followed by the timeout delivery at the window's end fires
exactly once, a trailing fire with the arguments of the last call. -/
lemma burst_after_leading (delay : Int) (q : Int × α) (rest : List (Int × α))
    (xn : α) (s1 : ThState α) (ht : s1.timeoutRef = none)
    (hfold : (q :: rest).foldl (fun _ r => some r.2) s1.trailingArgs = some xn)
    (hq : ¬ q.1 - s1.lastExecTime ≥ delay)
    (hrest : ∀ p ∈ rest, ¬ p.1 - s1.lastExecTime ≥ delay) :
    runFrom delay s1 ((q :: rest).map (fun p => Ev.trig p.1 p.2) ++
        [Ev.timer (s1.lastExecTime + delay)]) =
      ((⟨s1.callbackRef, s1.lastExecTime, none, none⟩ : ThState α),
       [⟨FireKind.trailing, s1.callbackRef, xn⟩]) := by
  rw [runFrom_append delay s1 ((q :: rest).map (fun p => Ev.trig p.1 p.2))
    [Ev.timer (s1.lastExecTime + delay)]]
  rw [runFrom_inWindow_noTimer_phase delay q rest s1 ht hq hrest]
  dsimp only
  rw [runFrom_timer_due delay (s1.lastExecTime + delay) (s1.lastExecTime + delay)
    (⟨s1.callbackRef, s1.lastExecTime, some (s1.lastExecTime + delay),
      (q :: rest).foldl (fun _ r => some r.2) s1.trailingArgs⟩ : ThState α)
    rfl (le_refl (s1.lastExecTime + delay))]
  rw [timeoutCallback_some
    (⟨s1.callbackRef, s1.lastExecTime, some (s1.lastExecTime + delay),
      (q :: rest).foldl (fun _ r => some r.2) s1.trailingArgs⟩ : ThState α)
    xn hfold]
  rfl

/-- C1: a burst — a first call of the throttled function in a free-window
state at time t1, at least one further call inside the window, and the
delivery of the timeout at the window's end t1 + delay — produces exactly
two fires: one leading fire with the first call's arguments and one
trailing fire with the last call's arguments, never any fire carrying an
intermediate call's arguments. -/
theorem burst_exactly_two_fires (delay t1 : Int) (x1 : α)
    (mid : List (Int × α)) (tn : Int) (xn : α) (s : ThState α)
    (_hdpos : 0 < delay) (hfree : t1 - s.lastExecTime ≥ delay)
    (hwin : ∀ p ∈ mid ++ [(tn, xn)], t1 ≤ p.1 ∧ p.1 - t1 < delay) :
    (runFrom delay s
      (Ev.trig t1 x1 ::
        ((mid ++ [(tn, xn)]).map (fun p => Ev.trig p.1 p.2) ++
          [Ev.timer (t1 + delay)]))).2 =
      [⟨FireKind.leading, s.callbackRef, x1⟩,
       ⟨FireKind.trailing, s.callbackRef, xn⟩] := by
  cases hrest : mid ++ [(tn, xn)] with
  | nil => exact absurd hrest (by simp)
  | cons q rest =>
    rw [hrest] at hwin
    have hfold : (q :: rest).foldl (fun _ r => some r.2) s.trailingArgs = some xn := by
      rw [← hrest]
      exact foldl_keepLast mid (tn, xn) s.trailingArgs
    rw [runFrom_cons_eq delay s ⟨s.callbackRef, t1, none, s.trailingArgs⟩
      [⟨FireKind.leading, s.callbackRef, x1⟩] (Ev.trig t1 x1)
      ((q :: rest).map (fun p => Ev.trig p.1 p.2) ++ [Ev.timer (t1 + delay)])
      (by rw [step_trig]; exact throttled_leading delay t1 x1 s hfree)]
    rw [show t1 + delay =
      (⟨s.callbackRef, t1, none, s.trailingArgs⟩ : ThState α).lastExecTime + delay
      from rfl]
    rw [burst_after_leading delay q rest xn
      ⟨s.callbackRef, t1, none, s.trailingArgs⟩ rfl hfold
      (by show ¬ q.1 - t1 ≥ delay; have h := hwin q (by simp); omega)
      (fun (p : Int × α) hp => by
        show ¬ p.1 - t1 ≥ delay
        have h := hwin p (by simp [hp])
        omega)]
    rfl

/-- C1 witness: window 200, burst at 1000, 1001, 1002, timeout delivered at
1200; exactly the leading fire of the first arguments and the trailing fire
of the last arguments occur. -/
theorem burst_exactly_two_fires_witness :
    (runFrom 200 (initState 4)
      (Ev.trig 1000 (1 : Nat) ::
        ((([((1001 : Int), (2 : Nat))] ++ [(1002, 3)]).map
            (fun (p : Int × Nat) => Ev.trig p.1 p.2)) ++
          [Ev.timer 1200]))).2 =
      [⟨FireKind.leading, 4, 1⟩, ⟨FireKind.trailing, 4, 3⟩] :=
  burst_exactly_two_fires 200 1000 1 [(1001, 2)] 1002 3 (initState 4)
    (by decide) (by decide) (by decide)

end IsoHooks
